import Mathlib

/-!
Verification development for the LeadGeneration iterative research system.

The definitions below are a shallow embedding of the Python modules
`intelligent_research/{data_accumulator, function_registry,
research_orchestrator, cerebras_client}.py`.  Pure logic is translated
function by function; I/O effects (file writes, wall-clock timestamps,
console printing, the HTTP transport and the external web explorer) are
modelled as explicit state fields or as oracle parameters.  Wall-clock
`added_at` timestamps are omitted from fact records because no property
here depends on them.
-/

set_option autoImplicit false

namespace LeadGen

/-- The whitespace set of Python `str.strip()` and of the regex class `\s`
(ASCII): space, tab, newline, carriage return, vertical tab, form feed. -/
def isPySpace (c : Char) : Bool :=
  c == ' ' || c == '\t' || c == '\n' || c == '\r' || c == '\x0b' || c == '\x0c'

/-- Python `str.strip()` on a character list. -/
def pyStripList (cs : List Char) : List Char :=
  ((cs.dropWhile isPySpace).reverse.dropWhile isPySpace).reverse

/-- Python `str.strip()` on a string. -/
def pyStrip (s : String) : String :=
  String.mk (pyStripList s.data)

/-- First-match association-list lookup; models Python `dict` key lookup
(`k in d` / `d[k]`) for dictionaries represented in insertion order. -/
def alookup {β : Type} (k : String) : List (String × β) → Option β
  | [] => none
  | (k', v) :: t => if k' = k then some v else alookup k t

/-- Python `dict.get(k, default)`. -/
def dictGetD {β : Type} (l : List (String × β)) (k : String) (d : β) : β :=
  (alookup k l).getD d

/-- Python `d[k] = v`: replaces the value of an existing key in place
(insertion position preserved), otherwise appends the new key at the end. -/
def dictSet {β : Type} : List (String × β) → String → β → List (String × β)
  | [], k, v => [(k, v)]
  | (k', v') :: t, k, v => if k' = k then (k, v) :: t else (k', v') :: dictSet t k v

/-! ### JSON values and a model of Python `json.loads`

`GeminiCerebrasClient.parse_json_response` finishes with `json.loads`, so the
embedding needs a model of the Python JSON decoder (strict mode, the default):
optional leading/trailing JSON whitespace, one value, and an "Extra data"
error if input remains afterwards.  Numbers are kept as their lexemes since
no property inspects numeric values.  `\uXXXX` escapes are decoded as single
code points (surrogate-pair joining is not modelled; no property uses it). -/

/-- JSON values as produced by the decoder. -/
inductive Json where
  | null
  | boolean (b : Bool)
  | num (lexeme : List Char)
  | str (s : List Char)
  | arr (elems : List Json)
  | obj (members : List (List Char × Json))

/-- JSON whitespace accepted by the Python decoder: space, tab, newline,
carriage return (a strict subset of `isPySpace`). -/
def isJsonWs (c : Char) : Bool :=
  c == ' ' || c == '\t' || c == '\n' || c == '\r'

/-- Skip JSON whitespace (the decoder's `_w` regex). -/
def skipWs (cs : List Char) : List Char :=
  cs.dropWhile isJsonWs

/-- Hexadecimal digit value. -/
def hexVal (c : Char) : Option Nat :=
  if '0' ≤ c ∧ c ≤ '9' then some (c.toNat - '0'.toNat)
  else if 'a' ≤ c ∧ c ≤ 'f' then some (c.toNat - 'a'.toNat + 10)
  else if 'A' ≤ c ∧ c ≤ 'F' then some (c.toNat - 'A'.toNat + 10)
  else none

/-- Decode a JSON string body (the opening quote already consumed): returns
the decoded characters and the input remaining after the closing quote.
Strict mode: raw control characters below `0x20` are rejected; only the
standard escapes and `\uXXXX` are accepted. -/
def parseStringBody : Nat → List Char → Option (List Char × List Char)
  | 0, _ => none
  | _, [] => none
  | fuel + 1, c :: rest =>
    if c = '"' then some ([], rest)
    else if c = '\\' then
      match rest with
      | [] => none
      | e :: rest' =>
        if e = '"' then (parseStringBody fuel rest').map (fun p => ('"' :: p.1, p.2))
        else if e = '\\' then (parseStringBody fuel rest').map (fun p => ('\\' :: p.1, p.2))
        else if e = '/' then (parseStringBody fuel rest').map (fun p => ('/' :: p.1, p.2))
        else if e = 'b' then (parseStringBody fuel rest').map (fun p => ('\x08' :: p.1, p.2))
        else if e = 'f' then (parseStringBody fuel rest').map (fun p => ('\x0c' :: p.1, p.2))
        else if e = 'n' then (parseStringBody fuel rest').map (fun p => ('\n' :: p.1, p.2))
        else if e = 'r' then (parseStringBody fuel rest').map (fun p => ('\r' :: p.1, p.2))
        else if e = 't' then (parseStringBody fuel rest').map (fun p => ('\t' :: p.1, p.2))
        else if e = 'u' then
          match rest' with
          | h1 :: h2 :: h3 :: h4 :: rest'' =>
            match hexVal h1, hexVal h2, hexVal h3, hexVal h4 with
            | some a, some b, some c2, some d =>
              (parseStringBody fuel rest'').map
                (fun p => (Char.ofNat (((a * 16 + b) * 16 + c2) * 16 + d) :: p.1, p.2))
            | _, _, _, _ => none
          | _ => none
        else none
    else if c.toNat < 0x20 then none
    else (parseStringBody fuel rest).map (fun p => (c :: p.1, p.2))

/-- The integer part of a JSON number: `0`, or a nonzero digit followed by
digits (the decoder's NUMBER_RE). -/
def parseIntPart : List Char → Option (List Char × List Char)
  | [] => none
  | c :: rest =>
    if c = '0' then some (['0'], rest)
    else if c.isDigit then
      let p := rest.span Char.isDigit
      some (c :: p.1, p.2)
    else none

/-- A JSON number lexeme: `-?(0|[1-9][0-9]*)(\.[0-9]+)?([eE][+-]?[0-9]+)?`. -/
def parseNumber (cs : List Char) : Option (List Char × List Char) :=
  let neg : List Char × List Char :=
    match cs with
    | '-' :: t => (['-'], t)
    | _ => ([], cs)
  match parseIntPart neg.2 with
  | none => none
  | some (ip, cs2) =>
    let frac : List Char × List Char :=
      match cs2 with
      | '.' :: t =>
        let p := t.span Char.isDigit
        if p.1 = [] then ([], cs2) else ('.' :: p.1, p.2)
      | _ => ([], cs2)
    let exp : List Char × List Char :=
      match frac.2 with
      | e :: t =>
        if e = 'e' ∨ e = 'E' then
          let sgn : List Char × List Char :=
            match t with
            | s :: t' => if s = '+' ∨ s = '-' then ([s], t') else ([], t)
            | [] => ([], t)
          let p := sgn.2.span Char.isDigit
          if p.1 = [] then ([], frac.2) else (e :: (sgn.1 ++ p.1), p.2)
        else ([], frac.2)
      | [] => ([], frac.2)
    some (neg.1 ++ ip ++ frac.1 ++ exp.1, exp.2)

mutual

/-- Parse one JSON value (leading whitespace allowed), returning the value
and the remaining input.  The default decoder also accepts the constants
`NaN`, `Infinity` and `-Infinity`. -/
def parseVal : Nat → List Char → Option (Json × List Char)
  | 0, _ => none
  | fuel + 1, cs0 =>
    let cs := skipWs cs0
    match cs with
    | '{' :: rest =>
      match skipWs rest with
      | '}' :: r => some (.obj [], r)
      | cs' => (parseMembers fuel cs').map (fun p => (Json.obj p.1, p.2))
    | '[' :: rest =>
      match skipWs rest with
      | ']' :: r => some (.arr [], r)
      | cs' => (parseItems fuel cs').map (fun p => (Json.arr p.1, p.2))
    | '"' :: rest =>
      (parseStringBody (rest.length + 1) rest).map (fun p => (Json.str p.1, p.2))
    | _ =>
      if "true".data.isPrefixOf cs then some (.boolean true, cs.drop 4)
      else if "false".data.isPrefixOf cs then some (.boolean false, cs.drop 5)
      else if "null".data.isPrefixOf cs then some (.null, cs.drop 4)
      else if "NaN".data.isPrefixOf cs then some (.num "NaN".data, cs.drop 3)
      else if "Infinity".data.isPrefixOf cs then some (.num "Infinity".data, cs.drop 8)
      else if "-Infinity".data.isPrefixOf cs then some (.num "-Infinity".data, cs.drop 9)
      else (parseNumber cs).map (fun p => (Json.num p.1, p.2))

/-- Parse the members of a non-empty JSON object, positioned at the opening
quote of a key; a comma must be followed by another key (no trailing comma). -/
def parseMembers : Nat → List Char → Option (List (List Char × Json) × List Char)
  | 0, _ => none
  | fuel + 1, cs =>
    match cs with
    | '"' :: rest =>
      match parseStringBody (rest.length + 1) rest with
      | none => none
      | some (key, r1) =>
        match skipWs r1 with
        | ':' :: r2 =>
          match parseVal fuel r2 with
          | none => none
          | some (v, r3) =>
            match skipWs r3 with
            | ',' :: r4 => (parseMembers fuel (skipWs r4)).map (fun p => ((key, v) :: p.1, p.2))
            | '}' :: r4 => some ([(key, v)], r4)
            | _ => none
        | _ => none
    | _ => none

/-- Parse the elements of a non-empty JSON array (no trailing comma). -/
def parseItems : Nat → List Char → Option (List Json × List Char)
  | 0, _ => none
  | fuel + 1, cs =>
    match parseVal fuel cs with
    | none => none
    | some (v, r1) =>
      match skipWs r1 with
      | ',' :: r2 => (parseItems fuel r2).map (fun p => (v :: p.1, p.2))
      | ']' :: r2 => some ([v], r2)
      | _ => none

end

/-- Model of Python `json.loads` in its default (strict) configuration:
parse exactly one JSON document; any non-whitespace trailing input is an
"Extra data" error.  `none` models a raised `json.JSONDecodeError`.
The fuel `2 * length + 2` dominates the recursion depth, which grows by at
most two per consumed input character. -/
def json_loads (cs : List Char) : Option Json :=
  match parseVal (2 * cs.length + 2) cs with
  | some (v, rest) => if skipWs rest = [] then some v else none
  | none => none

/-! ### `GeminiCerebrasClient` (`cerebras_client.py`) -/

/-- Split the input at the first occurrence of `pat`, returning the text
before it and the text after it (models `re.search` locating a literal). -/
def splitOnFirst (pat : List Char) : List Char → Option (List Char × List Char)
  | [] => if pat.isPrefixOf [] then some ([], []) else none
  | c :: cs =>
    if pat.isPrefixOf (c :: cs) then some ([], (c :: cs).drop pat.length)
    else
      match splitOnFirst pat cs with
      | some (pre, post) => some (c :: pre, post)
      | none => none

/-- Model of `re.search(r'```json\s*(.*?)\s*```', response, re.DOTALL)`:
the text between the first ` ```json ` fence and the next ` ``` ` fence,
with surrounding whitespace absorbed by the two greedy `\s*` groups. -/
def extractFenced (cs : List Char) : Option (List Char) :=
  match splitOnFirst "```json".data cs with
  | none => none
  | some (_, rest) =>
    match splitOnFirst "```".data rest with
    | none => none
    | some (content, _) => some (pyStripList content)

/-- Model of `re.search(r'\{.*\}', response, re.DOTALL)`: the span from the
first `\x7b` that is followed by some later `\x7d`, through the last `\x7d`
of the whole input (`.*` is greedy). -/
def braceSpan (cs : List Char) : Option (List Char) :=
  let fromBrace := cs.dropWhile (fun c => c != '{')
  match fromBrace with
  | [] => none
  | _ :: t =>
    if t.contains '}' then
      some ((fromBrace.reverse.dropWhile (fun c => c != '}')).reverse)
    else none

/-- The candidate string handed to `json.loads` by
`GeminiCerebrasClient.parse_json_response`: a fenced block if present,
otherwise the greedy brace span, otherwise the raw response. -/
def candidateOf (response : List Char) : List Char :=
  match extractFenced response with
  | some s => s
  | none =>
    match braceSpan response with
    | some s => s
    | none => response

/-- `GeminiCerebrasClient.parse_json_response`; `none` models the raised
`ValueError` (its message text is not modelled). -/
def parse_json_response (response : List Char) : Option Json :=
  json_loads (candidateOf response)

/-- Outcome of the HTTP POST inside `send_prompt`, as classified by its
`except` clauses: success body, `requests.exceptions.Timeout`,
`requests.exceptions.HTTPError` (non-success status raised by
`raise_for_status`), or any other exception. -/
inductive UpstreamOutcome where
  | success (content : List Char)
  | timedOut
  | httpError (status : Nat) (text : List Char)
  | exceptionRaised (msg : List Char)

/-- The errors the decision-oracle adapter can raise: the three
`RuntimeError` re-raises of `send_prompt` and the `ValueError` of
`parse_json_response`. -/
inductive DecisionFailure where
  | runtimeTimeout
  | runtimeHttp (status : Nat) (text : List Char)
  | runtimeOther (msg : List Char)
  | valueErrorParse

/-- `GeminiCerebrasClient.send_prompt`: returns the response content on
success and re-raises every transport failure as a `RuntimeError`
(log-file writing is omitted). -/
def send_prompt : UpstreamOutcome → Except DecisionFailure (List Char)
  | .success c => .ok c
  | .timedOut => .error .runtimeTimeout
  | .httpError s t => .error (.runtimeHttp s t)
  | .exceptionRaised m => .error (.runtimeOther m)

/-- `AIDecisionEngine.analyze_data` restricted to its failure structure:
`send_prompt` followed by `parse_json_response` (prompt construction does
not affect whether an error is raised). -/
def analyze_call (o : UpstreamOutcome) : Except DecisionFailure Json :=
  match send_prompt o with
  | .error e => .error e
  | .ok c =>
    match parse_json_response c with
    | some v => .ok v
    | none => .error .valueErrorParse

/-- Modelled from the spec: "extract the first well-formed `\x7b...\x7d`
span".  Enumerates contiguous substrings by start position (earliest
first) and then by length (shortest first) and returns the first one that
begins with `\x7b`, ends with `\x7d`, and parses as JSON.  This follows
the spec's words, for comparison against `candidateOf`, which is
translated from the code. -/
def specFirstWellFormedSpan (cs : List Char) : Option (List Char) :=
  ((cs.tails.map (fun t => (List.range (t.length + 1)).map t.take)).flatten).find?
    (fun s => s.head? == some '{' && s.getLast? == some '}' && (json_loads s).isSome)

/-! ### `DataAccumulator` (`data_accumulator.py`)

One structure per stored record kind, with the fields the Python code puts
in the corresponding dictionary (minus the wall-clock `added_at` stamp).
News, image and explored-source records are stored without a citation key. -/

structure Contact where
  name : String
  title : String
  email : String
  phone : String
  source : String
  source_url : String
  citation : Option Nat
  deriving DecidableEq

structure PainPoint where
  description : String
  evidence : String
  source : String
  source_url : String
  citation : Option Nat
  deriving DecidableEq

structure Technology where
  technology : String
  category : String
  source : String
  source_url : String
  citation : Option Nat
  deriving DecidableEq

/-- A news record as stored by `add_news`: it has no citation key. -/
structure NewsItem where
  title : String
  summary : String
  url : String
  date : String
  deriving DecidableEq

/-- Looking up a `citation` key on a stored news dictionary (as the report
generator does with `.get('citation')`) always yields `None`, because
`add_news` never writes one. -/
def NewsItem.citation (_ : NewsItem) : Option Nat := none

structure SourceEntry where
  source : String
  type : String
  deriving DecidableEq

/-- The accumulator state: the `self.data` collections plus the citation
ledger (`citation_map`, in insertion order, and `citation_counter`).
Image metadata dictionaries are opaque key-value lists. -/
structure DataAccumulator where
  company : List (String × String)
  contacts : List Contact
  pain_points : List PainPoint
  tech_stack : List Technology
  news : List NewsItem
  images : List (List (String × String))
  sources_explored : List SourceEntry
  iterations : Nat
  citation_map : List (String × Nat)
  citation_counter : Nat
  deriving DecidableEq

/-- `DataAccumulator.__init__`. -/
def DataAccumulator.init (company_info : List (String × String)) : DataAccumulator :=
  { company := company_info
    contacts := []
    pain_points := []
    tech_stack := []
    news := []
    images := []
    sources_explored := []
    iterations := 0
    citation_map := []
    citation_counter := 0 }

/-- `DataAccumulator._get_citation_number`: reuse the id of an already-seen
URL, otherwise assign `citation_counter + 1` and record the mapping. -/
def DataAccumulator.get_citation_number (a : DataAccumulator) (url : String) :
    Nat × DataAccumulator :=
  match alookup url a.citation_map with
  | some n => (n, a)
  | none =>
    let n := a.citation_counter + 1
    (n, { a with citation_counter := n, citation_map := a.citation_map ++ [(url, n)] })

/-- `DataAccumulator.add_contact`: resolve a citation only for a non-empty
(truthy) `source_url`, then append the record. -/
def DataAccumulator.add_contact (a : DataAccumulator)
    (name : String) (title : String := "") (email : String := "")
    (phone : String := "") (source : String := "") (source_url : String := "") :
    DataAccumulator :=
  if source_url = "" then
    { a with contacts := a.contacts ++ [⟨name, title, email, phone, source, source_url, none⟩] }
  else
    let p := a.get_citation_number source_url
    { p.2 with contacts :=
        p.2.contacts ++ [⟨name, title, email, phone, source, source_url, some p.1⟩] }

/-- `DataAccumulator.add_pain_point`. -/
def DataAccumulator.add_pain_point (a : DataAccumulator)
    (description : String) (evidence : String := "")
    (source : String := "") (source_url : String := "") : DataAccumulator :=
  if source_url = "" then
    { a with pain_points := a.pain_points ++ [⟨description, evidence, source, source_url, none⟩] }
  else
    let p := a.get_citation_number source_url
    { p.2 with pain_points :=
        p.2.pain_points ++ [⟨description, evidence, source, source_url, some p.1⟩] }

/-- `DataAccumulator.add_technology`. -/
def DataAccumulator.add_technology (a : DataAccumulator)
    (tech : String) (category : String := "")
    (source : String := "") (source_url : String := "") : DataAccumulator :=
  if source_url = "" then
    { a with tech_stack := a.tech_stack ++ [⟨tech, category, source, source_url, none⟩] }
  else
    let p := a.get_citation_number source_url
    { p.2 with tech_stack :=
        p.2.tech_stack ++ [⟨tech, category, source, source_url, some p.1⟩] }

/-- `DataAccumulator.add_news`: appends a record with no citation key. -/
def DataAccumulator.add_news (a : DataAccumulator)
    (title : String) (summary : String := "") (url : String := "")
    (date : String := "") : DataAccumulator :=
  { a with news := a.news ++ [⟨title, summary, url, date⟩] }

/-- `DataAccumulator.add_images`. -/
def DataAccumulator.add_images (a : DataAccumulator)
    (images : List (List (String × String))) : DataAccumulator :=
  { a with images := a.images ++ images }

/-- `DataAccumulator.add_source`. -/
def DataAccumulator.add_source (a : DataAccumulator)
    (source : String) (source_type : String := "webpage") : DataAccumulator :=
  { a with sources_explored := a.sources_explored ++ [⟨source, source_type⟩] }

/-- `DataAccumulator.increment_iteration`. -/
def DataAccumulator.increment_iteration (a : DataAccumulator) : DataAccumulator :=
  { a with iterations := a.iterations + 1 }

/-- `DataAccumulator.get_citations`: invert the ledger to id ↦ URL. -/
def DataAccumulator.get_citations (a : DataAccumulator) : List (Nat × String) :=
  a.citation_map.map (fun p => (p.2, p.1))

/-- One accumulator mutation, for stating lifetime invariants over every
sequence of add operations a subject's fact store can undergo. -/
inductive AccOp where
  | addContact (name title email phone source source_url : String)
  | addPainPoint (description evidence source source_url : String)
  | addTechnology (tech category source source_url : String)
  | addNews (title summary url date : String)
  | addImages (images : List (List (String × String)))
  | addSource (source source_type : String)
  | incrementIteration
  deriving DecidableEq

/-- Apply one accumulator operation. -/
def AccOp.apply (a : DataAccumulator) : AccOp → DataAccumulator
  | .addContact n t e p s u => a.add_contact n t e p s u
  | .addPainPoint d e s u => a.add_pain_point d e s u
  | .addTechnology t c s u => a.add_technology t c s u
  | .addNews t s u d => a.add_news t s u d
  | .addImages imgs => a.add_images imgs
  | .addSource s ty => a.add_source s ty
  | .incrementIteration => a.increment_iteration

/-- Apply a sequence of accumulator operations in order. -/
def applyOps (company : List (String × String)) (ops : List AccOp) : DataAccumulator :=
  ops.foldl AccOp.apply (DataAccumulator.init company)

/-! ### `FunctionRegistry` (`function_registry.py`)

A handler invocation `self.functions[name](**params)` either returns a
value, raises `TypeError` (the parameter-mismatch case `execute` catches
first), or raises some other exception.  Handler return values in this
repository are always `None`, so returns carry `Option String` (payload
unused).  The two `except` branches of `execute` and the not-implemented
branch produce messages; they are modelled structurally so that the
classification — not the f-string text — is what theorems speak about. -/

inductive HandlerOutcome where
  | ret (v : Option String)
  | typeError (msg : String)
  | raised (msg : String)
  deriving DecidableEq

/-- Result slot of `execute`'s returned pair: a handler value on success,
or one of the three diagnostic messages. -/
inductive ExecResult where
  | value (v : Option String)
  | notImplementedMsg (name : String)
  | parameterErrorMsg (name : String) (msg : String)
  | failedMsg (name : String) (msg : String)
  deriving DecidableEq

/-- Registry state: the handler table, the in-memory missing-function
counters, and the JSON contents of `missing_functions.json` on disk
(`missing_log_disk`), which `_log_missing` rewrites after each increment. -/
structure FunctionRegistry where
  functions : List (String × (List (String × String) → HandlerOutcome))
  missing_functions : List (String × Nat)
  missing_log_disk : List (String × Nat)

/-- `FunctionRegistry.register`: last registration wins (`dict` assignment). -/
def FunctionRegistry.register (r : FunctionRegistry) (name : String)
    (h : List (String × String) → HandlerOutcome) : FunctionRegistry :=
  { r with functions := dictSet r.functions name h }

/-- `FunctionRegistry._log_missing`: bump the counter and persist the whole
mapping to disk (the `IOError` fallback, which would skip the write, is not
modelled — the write-through path is the contract under test). -/
def FunctionRegistry.log_missing (r : FunctionRegistry) (name : String) :
    FunctionRegistry :=
  let m := dictSet r.missing_functions name (dictGetD r.missing_functions name 0 + 1)
  { r with missing_functions := m, missing_log_disk := m }

/-- `FunctionRegistry.execute`: unknown names are logged and reported as
not implemented; handler exceptions are converted to `(False, message)`;
normal returns to `(True, value)`. -/
def FunctionRegistry.execute (r : FunctionRegistry) (name : String)
    (params : List (String × String)) : FunctionRegistry × Bool × ExecResult :=
  match alookup name r.functions with
  | none => (r.log_missing name, false, .notImplementedMsg name)
  | some h =>
    match h params with
    | .ret v => (r, true, .value v)
    | .typeError m => (r, false, .parameterErrorMsg name m)
    | .raised m => (r, false, .failedMsg name m)

/-- Missing-function count currently recorded for `name`. -/
def FunctionRegistry.missingCount (r : FunctionRegistry) (name : String) : Nat :=
  dictGetD r.missing_functions name 0

/-! ### `IterativeResearchOrchestrator` (`research_orchestrator.py`)

The orchestrator's mutable state relevant to the research loop is
`current_accumulator` and `current_source_url`.  Dispatched actions are the
registered handlers with their parameters already bound; `other` covers the
registered handlers that never touch this state in the current code
(`download_image` and `save_company_info` only print;  `search_linkedin` and
`search_news` store data only when the explorer reports success, and both
explorer placeholders always return failure) as well as unknown action
names (whose only effect, the missing-function log, lives in the registry
state modelled above).  The external `WebsiteExplorer.explore_page` returns
`(success, content, url)` with the url echoed back unchanged, so it is
modelled by a success predicate `exploreOk` on urls. -/

structure OrchState where
  current_accumulator : Option DataAccumulator
  current_source_url : String
  deriving DecidableEq

inductive Action where
  | save_contact (name title email phone source source_url : String)
  | save_pain_point (description evidence source source_url : String)
  | extract_tech_stack (technologies : List String) (source_url : String)
  | explore_page (url reason : String)
  | other
  deriving DecidableEq

/-- `IterativeResearchOrchestrator._save_contact`.  The second gate of the
source (`not name and not email and phone`) is unreachable after the first
and is kept verbatim. -/
def OrchState.save_contact_h (st : OrchState)
    (name title email phone source source_url : String) : OrchState :=
  let name := pyStrip name
  let title := pyStrip title
  let email := pyStrip email
  let phone := pyStrip phone
  let source := pyStrip source
  let source_url := if source_url = "" then st.current_source_url else source_url
  if name = "" ∧ email = "" then st
  else if name = "" ∧ email = "" ∧ phone ≠ "" then st
  else
    match st.current_accumulator with
    | some a =>
      let a' := a.add_contact name title email phone source source_url
      { st with current_accumulator := some a' }
    | none => st

/-- `IterativeResearchOrchestrator._save_pain_point`. -/
def OrchState.save_pain_point_h (st : OrchState)
    (description evidence source source_url : String) : OrchState :=
  let source_url := if source_url = "" then st.current_source_url else source_url
  match st.current_accumulator with
  | some a =>
    let a' := a.add_pain_point description evidence source source_url
    { st with current_accumulator := some a' }
  | none => st

/-- `IterativeResearchOrchestrator._extract_tech_stack`: one
`add_technology` per listed technology, `source="AI extraction"`. -/
def OrchState.extract_tech_stack_h (st : OrchState)
    (technologies : List String) (source_url : String) : OrchState :=
  let source_url := if source_url = "" then st.current_source_url else source_url
  match st.current_accumulator with
  | some a =>
    let a' := technologies.foldl
      (fun acc tech => acc.add_technology tech "" "AI extraction" source_url) a
    { st with current_accumulator := some a' }
  | none => st

/-- `IterativeResearchOrchestrator._explore_page`: on explorer success,
overwrite the current source url and record the explored source. -/
def OrchState.explore_page_h (exploreOk : String → Bool) (st : OrchState)
    (url : String) : OrchState :=
  if exploreOk url then
    let st := { st with current_source_url := url }
    match st.current_accumulator with
    | some a => { st with current_accumulator := some (a.add_source url "webpage") }
    | none => st
  else st

/-- Dispatch one action to its handler (the state effect of
`registry.execute` on a bound orchestrator). -/
def dispatchAction (exploreOk : String → Bool) (st : OrchState) : Action → OrchState
  | .save_contact n t e p s u => st.save_contact_h n t e p s u
  | .save_pain_point d e s u => st.save_pain_point_h d e s u
  | .extract_tech_stack ts u => st.extract_tech_stack_h ts u
  | .explore_page url _ => st.explore_page_h exploreOk url
  | .other => st

/-- Dispatch a list of actions in order. -/
def dispatchList (exploreOk : String → Bool) (acts : List Action) (st : OrchState) :
    OrchState :=
  acts.foldl (dispatchAction exploreOk) st

/-- `registry.execute` on a registered orchestrator handler invoked with
well-formed parameters: the handler mutates the state, returns `None`, and
raises nothing, so `execute` takes its success branch and reports
`(True, None)`. -/
def executeBound (exploreOk : String → Bool) (st : OrchState) (act : Action) :
    OrchState × Bool × Option String :=
  (dispatchAction exploreOk st act, true, none)

/-- Is `act` an exploration that will succeed under `exploreOk`?  Only such
an action overwrites `current_source_url`. -/
def successfulExplore (exploreOk : String → Bool) : Action → Bool
  | .explore_page url _ => exploreOk url
  | _ => false

/-- The decision dictionary as consumed by the loop (`decision.get` with
defaults): noted data, actions, follow-up steps, and a status string. -/
structure Decision where
  relevant_data : List String
  actions : List Action
  next_steps : List Action
  status : String

/-- The iteration accumulator's counter (0 when no accumulator is bound). -/
def OrchState.iterations (st : OrchState) : Nat :=
  match st.current_accumulator with
  | some a => a.iterations
  | none => 0

/-- `accumulator.increment_iteration()` as seen from the orchestrator. -/
def incrementIterSt (st : OrchState) : OrchState :=
  { st with current_accumulator := st.current_accumulator.map (·.increment_iteration) }

/-- Iterations `i, i+1, ...` of the `research_company` loop with `fuel`
iterations left in the `range(1, max_iterations + 1)` budget.  Each pass:
increment the iteration counter, consult the oracle (`none` models a raised
exception, which the `except` clause turns into a `break`), dispatch
`actions` then `next_steps` in order, and stop if the status is complete. -/
def runIters (oracle : Nat → Option Decision) (exploreOk : String → Bool) :
    Nat → Nat → OrchState → OrchState
  | 0, _, st => st
  | fuel + 1, i, st =>
    let st := incrementIterSt st
    match oracle i with
    | none => st
    | some d =>
      let st := dispatchList exploreOk (d.actions ++ d.next_steps) st
      if d.status = "complete" then st else runIters oracle exploreOk fuel (i + 1) st

/-- The state `research_company` builds before entering the loop: a fresh
accumulator for the company, with the company website recorded as an
initially explored source when present. -/
def initCompanyState (company : List (String × String)) (st0 : OrchState) : OrchState :=
  let a := DataAccumulator.init company
  let website := dictGetD company "WebsiteURL" ""
  let a := if website = "" then a else a.add_source website "homepage"
  { st0 with current_accumulator := some a }

/-- `IterativeResearchOrchestrator.research_company`: the full loop over a
company.  The function returns the final orchestrator state; the Python
method returns `accumulator.get_context()`, i.e. the data held in
`current_accumulator`. -/
def research_company (oracle : Nat → Option Decision) (exploreOk : String → Bool)
    (company : List (String × String)) (max_iterations : Nat) (st0 : OrchState) :
    OrchState :=
  runIters oracle exploreOk max_iterations 1 (initCompanyState company st0)

/-- The first `n` loop iterations starting at index `i`, run to completion
with no early exit: increment, dispatch the decision's actions and follow-up
steps, continue.  This is the reference "partial run" a halted loop is
compared against (oracle failures inside the range are ignored; the
comparison theorems only use it where the oracle is defined). -/
def runFirstIters (oracle : Nat → Option Decision) (exploreOk : String → Bool) :
    Nat → Nat → OrchState → OrchState
  | 0, _, st => st
  | n + 1, i, st =>
    let st := incrementIterSt st
    match oracle i with
    | none => st
    | some d =>
      runFirstIters oracle exploreOk n (i + 1)
        (dispatchList exploreOk (d.actions ++ d.next_steps) st)

/-! ### Invariant statements used by the citation claims -/

/-- The ledger assigns ids sequentially in first-seen order: the ids stored
in `citation_map`, read in insertion order, are exactly `1, 2, ...,
citation_counter`. -/
def LedgerSeq (a : DataAccumulator) : Prop :=
  a.citation_map.map Prod.snd = List.range' 1 a.citation_counter

/-- Citation hygiene of one fact against a ledger `m`: with an empty
locator the fact has no citation; with a non-empty locator it carries
exactly the ledger's id for that locator (hence a non-null one). -/
def FactOK (m : List (String × Nat)) (url : String) (cit : Option Nat) : Prop :=
  (url = "" → cit = none) ∧ (url ≠ "" → cit = alookup url m ∧ cit.isSome)

/-- Citation hygiene of the three cited categories of a fact store. -/
def CiteOK (a : DataAccumulator) : Prop :=
  (∀ c ∈ a.contacts, FactOK a.citation_map c.source_url c.citation) ∧
  (∀ p ∈ a.pain_points, FactOK a.citation_map p.source_url p.citation) ∧
  (∀ t ∈ a.tech_stack, FactOK a.citation_map t.source_url t.citation)

/-- Some stored fact (in any cited category) carries locator `u` with
citation value `c`. -/
def citedWith (a : DataAccumulator) (u : String) (c : Option Nat) : Prop :=
  (∃ f ∈ a.contacts, f.source_url = u ∧ f.citation = c) ∨
  (∃ f ∈ a.pain_points, f.source_url = u ∧ f.citation = c) ∨
  (∃ f ∈ a.tech_stack, f.source_url = u ∧ f.citation = c)

/-- A concrete handler used to exercise `execute`'s exception boundary:
its outcome (return, `TypeError`, other exception) is selected by the
parameter dictionary it receives. -/
def probeHandler (ps : List (String × String)) : HandlerOutcome :=
  if ps = [("mode", "type")] then .typeError "unexpected keyword argument"
  else if ps = [("mode", "raise")] then .raised "boom"
  else .ret none

/-- A concrete accumulator with one cited contact, for exercising the
ledger theorems. -/
def wAccA : DataAccumulator :=
  (DataAccumulator.init []).add_contact "Jane Doe" "" "" "" "" "http://a.example.com"

/-- A concrete operation sequence touching two distinct locators. -/
def wOps : List AccOp :=
  [.addContact "Jane Doe" "" "" "" "" "http://a.example.com",
   .addPainPoint "slow deploys" "" "" "http://b.example.com"]

/-- A concrete oracle that reports completion on iteration 2 of a budget. -/
def wOracleComplete2 : Nat → Option Decision := fun j =>
  some { relevant_data := [], actions := [], next_steps := [],
         status := if j = 2 then "complete" else "continue" }

/-- A concrete oracle that never reports completion. -/
def wOracleNeverDone : Nat → Option Decision := fun _ =>
  some { relevant_data := [], actions := [], next_steps := [], status := "continue" }

/-- A concrete oracle that raises on every call. -/
def wOracleRaises : Nat → Option Decision := fun _ => none

/-! ## Helper lemmas -/

theorem alookup_dictSet_self {β : Type} (l : List (String × β)) (k : String) (v : β) :
    alookup k (dictSet l k v) = some v := by
  induction l with
  | nil => simp [dictSet, alookup]
  | cons hd t ih =>
    obtain ⟨k', v'⟩ := hd
    by_cases hk : k' = k
    · simp [dictSet, hk, alookup]
    · simp [dictSet, hk, alookup, ih]

theorem get_citation_number_collections (a : DataAccumulator) (u : String) :
    (a.get_citation_number u).2.contacts = a.contacts ∧
    (a.get_citation_number u).2.pain_points = a.pain_points ∧
    (a.get_citation_number u).2.tech_stack = a.tech_stack ∧
    (a.get_citation_number u).2.news = a.news ∧
    (a.get_citation_number u).2.iterations = a.iterations := by
  unfold DataAccumulator.get_citation_number
  cases alookup u a.citation_map <;> exact ⟨rfl, rfl, rfl, rfl, rfl⟩

/-! ## Claim theorems -/

/-- C6: executing an unregistered action name returns `(False, "not
implemented")` instead of raising, increments that name's missing-action
counter by exactly one, persists the updated counters to disk after the
increment, leaves the handler table unchanged, and three such calls leave
the counter three higher. -/
theorem c6_missing_action_counter (r : FunctionRegistry) (name : String)
    (params : List (String × String)) (h : alookup name r.functions = none) :
    (r.execute name params).2 = (false, .notImplementedMsg name) ∧
    (r.execute name params).1.missingCount name = r.missingCount name + 1 ∧
    (r.execute name params).1.missing_log_disk = (r.execute name params).1.missing_functions ∧
    (r.execute name params).1.functions = r.functions ∧
    (((r.execute name params).1.execute name params).1.execute name params).1.missingCount name
      = r.missingCount name + 3 := by
  have step : ∀ s : FunctionRegistry, alookup name s.functions = none →
      s.execute name params = (s.log_missing name, false, .notImplementedMsg name) := by
    intro s hs
    simp [FunctionRegistry.execute, hs]
  have lmCount : ∀ s : FunctionRegistry,
      (s.log_missing name).missingCount name = s.missingCount name + 1 := by
    intro s
    simp [FunctionRegistry.log_missing, FunctionRegistry.missingCount, dictGetD,
      alookup_dictSet_self]
  have lmFuns : ∀ s : FunctionRegistry, (s.log_missing name).functions = s.functions :=
    fun _ => rfl
  have h2 : alookup name (r.log_missing name).functions = none := by
    rw [lmFuns]; exact h
  have h3 : alookup name ((r.log_missing name).log_missing name).functions = none := by
    rw [lmFuns, lmFuns]; exact h
  refine ⟨by rw [step r h], by rw [step r h]; exact lmCount r, by rw [step r h]; rfl,
    by rw [step r h]; exact lmFuns r, ?_⟩
  rw [step r h]
  simp only
  rw [step _ h2]
  simp only
  rw [step _ h3]
  simp only
  rw [lmCount, lmCount, lmCount]

/-- C6 witness: a registry with no registered functions and a fresh
counter, executed on an unknown action name. -/
theorem c6_missing_action_counter_witness :
    (FunctionRegistry.execute ⟨[], [], []⟩ "search_crunchbase" []).2
      = (false, .notImplementedMsg "search_crunchbase") ∧
    (FunctionRegistry.execute ⟨[], [], []⟩ "search_crunchbase" []).1.missingCount
      "search_crunchbase" = FunctionRegistry.missingCount ⟨[], [], []⟩ "search_crunchbase" + 1 ∧
    (FunctionRegistry.execute ⟨[], [], []⟩ "search_crunchbase" []).1.missing_log_disk
      = (FunctionRegistry.execute ⟨[], [], []⟩ "search_crunchbase" []).1.missing_functions ∧
    (FunctionRegistry.execute ⟨[], [], []⟩ "search_crunchbase" []).1.functions = [] ∧
    (((FunctionRegistry.execute ⟨[], [], []⟩ "search_crunchbase" []).1.execute
        "search_crunchbase" []).1.execute "search_crunchbase" []).1.missingCount
      "search_crunchbase" = FunctionRegistry.missingCount ⟨[], [], []⟩ "search_crunchbase" + 3 :=
  c6_missing_action_counter ⟨[], [], []⟩ "search_crunchbase" [] rfl

/-- C7: `execute` never lets a handler exception escape: a `TypeError`
(parameter mismatch) becomes `(False, parameter-error message)`, any other
exception becomes `(False, failed message)`, and a normal return `r`
becomes `(True, r)` — the registry state is untouched in all three cases. -/
theorem c7_handler_exception_boundary (r : FunctionRegistry) (name : String)
    (hnd : List (String × String) → HandlerOutcome) (params : List (String × String))
    (h : alookup name r.functions = some hnd) :
    (∀ m, hnd params = .typeError m →
      r.execute name params = (r, false, .parameterErrorMsg name m)) ∧
    (∀ m, hnd params = .raised m →
      r.execute name params = (r, false, .failedMsg name m)) ∧
    (∀ v, hnd params = .ret v →
      r.execute name params = (r, true, .value v)) := by
  refine ⟨?_, ?_, ?_⟩ <;> intro x hx <;> simp [FunctionRegistry.execute, h, hx]

/-- C7 witness: a registry with one handler exercised on the
parameter-mismatch outcome. -/
theorem c7_handler_exception_boundary_witness :
    (FunctionRegistry.execute ⟨[("probe", probeHandler)], [], []⟩ "probe" [("mode", "type")])
      = (⟨[("probe", probeHandler)], [], []⟩, false,
          .parameterErrorMsg "probe" "unexpected keyword argument") :=
  (c7_handler_exception_boundary ⟨[("probe", probeHandler)], [], []⟩ "probe" probeHandler
    [("mode", "type")] (by simp [alookup])).1 "unexpected keyword argument" (by decide)

/-- C10 (implicit): with no accumulator bound (`current_accumulator` is
`None`), the save handlers mutate nothing and return `None`, so
`registry.execute` still reports success `(True, None)`. -/
theorem c10_unbound_save_handlers (exploreOk : String → Bool) (st : OrchState)
    (name title email phone source source_url : String)
    (pdesc pevid psrc purl : String) (techs : List String) (turl : String)
    (h : st.current_accumulator = none)
    (_hname : ¬(pyStrip name = "" ∧ pyStrip email = "")) :
    executeBound exploreOk st (.save_contact name title email phone source source_url)
      = (st, true, none) ∧
    executeBound exploreOk st (.save_pain_point pdesc pevid psrc purl) = (st, true, none) ∧
    executeBound exploreOk st (.extract_tech_stack techs turl) = (st, true, none) := by
  refine ⟨?_, ?_, ?_⟩
  · simp only [executeBound, dispatchAction, OrchState.save_contact_h, h, ite_self]
  · simp only [executeBound, dispatchAction, OrchState.save_pain_point_h, h]
  · simp only [executeBound, dispatchAction, OrchState.extract_tech_stack_h, h]

/-- C10 witness: an unbound orchestrator state swallows a valid contact,
a pain point and a tech-stack extraction while reporting success. -/
theorem c10_unbound_save_handlers_witness :
    executeBound (fun _ => true) ⟨none, "http://acme.example.com"⟩
      (.save_contact "Jane Doe" "CEO" "jane@acme.example.com" "" "" "")
      = (⟨none, "http://acme.example.com"⟩, true, none) ∧
    executeBound (fun _ => true) ⟨none, "http://acme.example.com"⟩
      (.save_pain_point "manual data entry" "" "" "") = (⟨none, "http://acme.example.com"⟩, true, none) ∧
    executeBound (fun _ => true) ⟨none, "http://acme.example.com"⟩
      (.extract_tech_stack ["React"] "") = (⟨none, "http://acme.example.com"⟩, true, none) :=
  c10_unbound_save_handlers (fun _ => true) ⟨none, "http://acme.example.com"⟩
    "Jane Doe" "CEO" "jane@acme.example.com" "" "" "" "manual data entry" "" "" ""
    ["React"] "" rfl (by decide)

/-- C5: the `save_contact` validation gate (with an accumulator bound)
rejects — returns with the whole state unchanged — exactly when both name
and email are empty after trimming; otherwise exactly one contact record is
appended, retaining the trimmed name. -/
theorem c5_save_contact_gate (st : OrchState) (a : DataAccumulator)
    (name title email phone source source_url : String)
    (h : st.current_accumulator = some a) :
    (pyStrip name = "" ∧ pyStrip email = "" →
      st.save_contact_h name title email phone source source_url = st) ∧
    (¬(pyStrip name = "" ∧ pyStrip email = "") →
      ∃ a' rec, (st.save_contact_h name title email phone source source_url).current_accumulator
          = some a' ∧
        a'.contacts = a.contacts ++ [rec] ∧ rec.name = pyStrip name) := by
  constructor
  · intro hc
    simp only [OrchState.save_contact_h]
    rw [if_pos hc]
  · intro hc
    simp only [OrchState.save_contact_h, h]
    rw [if_neg hc, if_neg (by tauto)]
    by_cases hu : (if source_url = "" then st.current_source_url else source_url) = ""
    · refine ⟨_, ⟨pyStrip name, pyStrip title, pyStrip email, pyStrip phone, pyStrip source,
        (if source_url = "" then st.current_source_url else source_url), none⟩, rfl, ?_, rfl⟩
      simp only [DataAccumulator.add_contact, if_pos hu]
    · refine ⟨_, ⟨pyStrip name, pyStrip title, pyStrip email, pyStrip phone, pyStrip source,
        (if source_url = "" then st.current_source_url else source_url),
        some (a.get_citation_number
          (if source_url = "" then st.current_source_url else source_url)).1⟩, rfl, ?_, rfl⟩
      simp only [DataAccumulator.add_contact, if_neg hu]
      rw [(get_citation_number_collections a _).1]

/-- C5 witness: a blank name/email contact (phone only) is rejected with
the state unchanged; a contact with a name is appended with its name
trimmed. -/
theorem c5_save_contact_gate_witness :
    (OrchState.save_contact_h ⟨some (DataAccumulator.init []), ""⟩
        " " "" "  " "555-1234" "" "" = ⟨some (DataAccumulator.init []), ""⟩) ∧
    (∃ a' rec, (OrchState.save_contact_h ⟨some (DataAccumulator.init []), ""⟩
        "  Jane Doe " "CEO" "" "" "" "http://acme.example.com").current_accumulator = some a' ∧
      a'.contacts = (DataAccumulator.init []).contacts ++ [rec] ∧ rec.name = pyStrip "  Jane Doe ") :=
  ⟨(c5_save_contact_gate ⟨some (DataAccumulator.init []), ""⟩ (DataAccumulator.init [])
      " " "" "  " "555-1234" "" "" rfl).1 (by decide),
   (c5_save_contact_gate ⟨some (DataAccumulator.init []), ""⟩ (DataAccumulator.init [])
      "  Jane Doe " "CEO" "" "" "" "http://acme.example.com" rfl).2 (by decide)⟩

/-! ## Ledger lemmas (C3, C4) -/

theorem alookup_append_of_some {β : Type} (l l' : List (String × β)) (u : String) (v : β)
    (h : alookup u l = some v) : alookup u (l ++ l') = some v := by
  induction l with
  | nil => simp [alookup] at h
  | cons hd t ih =>
    obtain ⟨k, w⟩ := hd
    by_cases hk : k = u
    · simpa [alookup, hk] using h
    · rw [List.cons_append]
      simp only [alookup, if_neg hk] at h ⊢
      exact ih h

theorem alookup_append_self {β : Type} (l : List (String × β)) (u : String) (v : β)
    (h : alookup u l = none) : alookup u (l ++ [(u, v)]) = some v := by
  induction l with
  | nil => simp [alookup]
  | cons hd t ih =>
    obtain ⟨k, w⟩ := hd
    by_cases hk : k = u
    · simp [alookup, hk] at h
    · rw [List.cons_append]
      simp only [alookup, if_neg hk] at h ⊢
      exact ih h

theorem get_citation_number_spec (a : DataAccumulator) (u : String) :
    alookup u (a.get_citation_number u).2.citation_map = some (a.get_citation_number u).1 ∧
    ∀ w v, alookup w a.citation_map = some v →
      alookup w (a.get_citation_number u).2.citation_map = some v := by
  unfold DataAccumulator.get_citation_number
  cases h : alookup u a.citation_map with
  | some i => exact ⟨h, fun w v hv => hv⟩
  | none =>
    exact ⟨alookup_append_self _ _ _ h, fun w v hv => alookup_append_of_some _ _ _ _ hv⟩

theorem factOK_mono (a : DataAccumulator) (u : String) {url : String} {cit : Option Nat}
    (h : FactOK a.citation_map url cit) :
    FactOK (a.get_citation_number u).2.citation_map url cit := by
  obtain ⟨h1, h2⟩ := h
  refine ⟨h1, fun hne => ?_⟩
  obtain ⟨hc, hs⟩ := h2 hne
  obtain ⟨v, hv⟩ := Option.isSome_iff_exists.1 hs
  rw [hv] at hc
  refine ⟨?_, hs⟩
  rw [hv, ((get_citation_number_spec a u).2 url v hc.symm)]

theorem factOK_new (a : DataAccumulator) (u : String) (hu : u ≠ "") :
    FactOK (a.get_citation_number u).2.citation_map u (some (a.get_citation_number u).1) :=
  ⟨fun h => absurd h hu, fun _ => ⟨((get_citation_number_spec a u).1).symm, rfl⟩⟩

theorem citeOK_add_contact (a : DataAccumulator) (n t e p s u : String) (h : CiteOK a) :
    CiteOK (a.add_contact n t e p s u) := by
  obtain ⟨hc, hp, ht⟩ := h
  unfold DataAccumulator.add_contact
  by_cases hu : u = ""
  · rw [if_pos hu]
    refine ⟨fun c hmem => ?_, fun q hmem => hp q hmem, fun q hmem => ht q hmem⟩
    rcases List.mem_append.1 hmem with h1 | h2
    · exact hc c h1
    · rw [List.mem_singleton] at h2
      subst h2
      exact ⟨fun _ => rfl, fun hne => absurd hu hne⟩
  · rw [if_neg hu]
    refine ⟨fun c hmem => ?_, fun q hmem => ?_, fun q hmem => ?_⟩
    · rw [show ({ (a.get_citation_number u).2 with contacts :=
          (a.get_citation_number u).2.contacts ++
            [⟨n, t, e, p, s, u, some (a.get_citation_number u).1⟩] } : DataAccumulator).contacts
          = (a.get_citation_number u).2.contacts ++
            [⟨n, t, e, p, s, u, some (a.get_citation_number u).1⟩] from rfl,
        (get_citation_number_collections a u).1] at hmem
      rcases List.mem_append.1 hmem with h1 | h2
      · exact factOK_mono a u (hc c h1)
      · rw [List.mem_singleton] at h2
        subst h2
        exact factOK_new a u hu
    · rw [show ({ (a.get_citation_number u).2 with contacts :=
          (a.get_citation_number u).2.contacts ++
            [⟨n, t, e, p, s, u, some (a.get_citation_number u).1⟩] } : DataAccumulator).pain_points
          = (a.get_citation_number u).2.pain_points from rfl,
        (get_citation_number_collections a u).2.1] at hmem
      exact factOK_mono a u (hp q hmem)
    · rw [show ({ (a.get_citation_number u).2 with contacts :=
          (a.get_citation_number u).2.contacts ++
            [⟨n, t, e, p, s, u, some (a.get_citation_number u).1⟩] } : DataAccumulator).tech_stack
          = (a.get_citation_number u).2.tech_stack from rfl,
        (get_citation_number_collections a u).2.2.1] at hmem
      exact factOK_mono a u (ht q hmem)

theorem citeOK_add_pain_point (a : DataAccumulator) (d e s u : String) (h : CiteOK a) :
    CiteOK (a.add_pain_point d e s u) := by
  obtain ⟨hc, hp, ht⟩ := h
  unfold DataAccumulator.add_pain_point
  by_cases hu : u = ""
  · rw [if_pos hu]
    refine ⟨fun q hmem => hc q hmem, fun q hmem => ?_, fun q hmem => ht q hmem⟩
    rcases List.mem_append.1 hmem with h1 | h2
    · exact hp q h1
    · rw [List.mem_singleton] at h2
      subst h2
      exact ⟨fun _ => rfl, fun hne => absurd hu hne⟩
  · rw [if_neg hu]
    refine ⟨fun q hmem => ?_, fun q hmem => ?_, fun q hmem => ?_⟩
    · rw [show ({ (a.get_citation_number u).2 with pain_points :=
          (a.get_citation_number u).2.pain_points ++
            [⟨d, e, s, u, some (a.get_citation_number u).1⟩] } : DataAccumulator).contacts
          = (a.get_citation_number u).2.contacts from rfl,
        (get_citation_number_collections a u).1] at hmem
      exact factOK_mono a u (hc q hmem)
    · rw [show ({ (a.get_citation_number u).2 with pain_points :=
          (a.get_citation_number u).2.pain_points ++
            [⟨d, e, s, u, some (a.get_citation_number u).1⟩] } : DataAccumulator).pain_points
          = (a.get_citation_number u).2.pain_points ++
            [⟨d, e, s, u, some (a.get_citation_number u).1⟩] from rfl,
        (get_citation_number_collections a u).2.1] at hmem
      rcases List.mem_append.1 hmem with h1 | h2
      · exact factOK_mono a u (hp q h1)
      · rw [List.mem_singleton] at h2
        subst h2
        exact factOK_new a u hu
    · rw [show ({ (a.get_citation_number u).2 with pain_points :=
          (a.get_citation_number u).2.pain_points ++
            [⟨d, e, s, u, some (a.get_citation_number u).1⟩] } : DataAccumulator).tech_stack
          = (a.get_citation_number u).2.tech_stack from rfl,
        (get_citation_number_collections a u).2.2.1] at hmem
      exact factOK_mono a u (ht q hmem)

theorem citeOK_add_technology (a : DataAccumulator) (t c s u : String) (h : CiteOK a) :
    CiteOK (a.add_technology t c s u) := by
  obtain ⟨hc, hp, ht⟩ := h
  unfold DataAccumulator.add_technology
  by_cases hu : u = ""
  · rw [if_pos hu]
    refine ⟨fun q hmem => hc q hmem, fun q hmem => hp q hmem, fun q hmem => ?_⟩
    rcases List.mem_append.1 hmem with h1 | h2
    · exact ht q h1
    · rw [List.mem_singleton] at h2
      subst h2
      exact ⟨fun _ => rfl, fun hne => absurd hu hne⟩
  · rw [if_neg hu]
    refine ⟨fun q hmem => ?_, fun q hmem => ?_, fun q hmem => ?_⟩
    · rw [show ({ (a.get_citation_number u).2 with tech_stack :=
          (a.get_citation_number u).2.tech_stack ++
            [⟨t, c, s, u, some (a.get_citation_number u).1⟩] } : DataAccumulator).contacts
          = (a.get_citation_number u).2.contacts from rfl,
        (get_citation_number_collections a u).1] at hmem
      exact factOK_mono a u (hc q hmem)
    · rw [show ({ (a.get_citation_number u).2 with tech_stack :=
          (a.get_citation_number u).2.tech_stack ++
            [⟨t, c, s, u, some (a.get_citation_number u).1⟩] } : DataAccumulator).pain_points
          = (a.get_citation_number u).2.pain_points from rfl,
        (get_citation_number_collections a u).2.1] at hmem
      exact factOK_mono a u (hp q hmem)
    · rw [show ({ (a.get_citation_number u).2 with tech_stack :=
          (a.get_citation_number u).2.tech_stack ++
            [⟨t, c, s, u, some (a.get_citation_number u).1⟩] } : DataAccumulator).tech_stack
          = (a.get_citation_number u).2.tech_stack ++
            [⟨t, c, s, u, some (a.get_citation_number u).1⟩] from rfl,
        (get_citation_number_collections a u).2.2.1] at hmem
      rcases List.mem_append.1 hmem with h1 | h2
      · exact factOK_mono a u (ht q h1)
      · rw [List.mem_singleton] at h2
        subst h2
        exact factOK_new a u hu

theorem citeOK_apply (a : DataAccumulator) (op : AccOp) (h : CiteOK a) :
    CiteOK (AccOp.apply a op) := by
  cases op with
  | addContact n t e p s u => exact citeOK_add_contact a n t e p s u h
  | addPainPoint d e s u => exact citeOK_add_pain_point a d e s u h
  | addTechnology t c s u => exact citeOK_add_technology a t c s u h
  | addNews t s u d => exact h
  | addImages imgs => exact h
  | addSource s ty => exact h
  | incrementIteration => exact h

theorem citeOK_foldl :
    ∀ (ops : List AccOp) (a : DataAccumulator), CiteOK a → CiteOK (ops.foldl AccOp.apply a)
  | [], _, h => h
  | op :: ops, a, h => citeOK_foldl ops _ (citeOK_apply a op h)

theorem citeOK_init (comp : List (String × String)) : CiteOK (DataAccumulator.init comp) := by
  refine ⟨?_, ?_, ?_⟩ <;> intro q hmem <;> simp [DataAccumulator.init] at hmem

theorem ledgerSeq_get_citation_number (a : DataAccumulator) (u : String) (hA : LedgerSeq a) :
    LedgerSeq (a.get_citation_number u).2 := by
  unfold DataAccumulator.get_citation_number
  cases h : alookup u a.citation_map with
  | some i => exact hA
  | none =>
    unfold LedgerSeq at hA ⊢
    dsimp only
    rw [List.map_append, hA, List.range'_concat]
    simp [Nat.add_comm]

theorem ledgerSeq_apply (a : DataAccumulator) (op : AccOp) (hA : LedgerSeq a) :
    LedgerSeq (AccOp.apply a op) := by
  cases op with
  | addContact n t e p s u =>
    show LedgerSeq (a.add_contact n t e p s u)
    unfold DataAccumulator.add_contact
    by_cases hu : u = ""
    · rw [if_pos hu]; exact hA
    · rw [if_neg hu]; exact ledgerSeq_get_citation_number a u hA
  | addPainPoint d e s u =>
    show LedgerSeq (a.add_pain_point d e s u)
    unfold DataAccumulator.add_pain_point
    by_cases hu : u = ""
    · rw [if_pos hu]; exact hA
    · rw [if_neg hu]; exact ledgerSeq_get_citation_number a u hA
  | addTechnology t c s u =>
    show LedgerSeq (a.add_technology t c s u)
    unfold DataAccumulator.add_technology
    by_cases hu : u = ""
    · rw [if_pos hu]; exact hA
    · rw [if_neg hu]; exact ledgerSeq_get_citation_number a u hA
  | addNews t s u d => exact hA
  | addImages imgs => exact hA
  | addSource s ty => exact hA
  | incrementIteration => exact hA

theorem ledgerSeq_foldl :
    ∀ (ops : List AccOp) (a : DataAccumulator), LedgerSeq a → LedgerSeq (ops.foldl AccOp.apply a)
  | [], _, h => h
  | op :: ops, a, h => ledgerSeq_foldl ops _ (ledgerSeq_apply a op h)

theorem snd_nodup_inj :
    ∀ {l : List (String × Nat)}, (l.map Prod.snd).Nodup →
      ∀ {u1 u2 : String} {i : Nat}, (u1, i) ∈ l → (u2, i) ∈ l → u1 = u2 := by
  intro l
  induction l with
  | nil =>
    intro _ u1 u2 i h1
    simp at h1
  | cons hd t ih =>
    intro hnd u1 u2 i h1 h2
    rw [List.map_cons, List.nodup_cons] at hnd
    obtain ⟨hni, hnd'⟩ := hnd
    rcases List.mem_cons.1 h1 with e1 | m1
    · rcases List.mem_cons.1 h2 with e2 | m2
      · rw [← e1] at e2
        exact (Prod.mk.injEq u2 i u1 i ▸ e2).1.symm
      · exfalso
        apply hni
        rw [← e1]
        simpa using List.mem_map_of_mem Prod.snd m2
    · rcases List.mem_cons.1 h2 with e2 | m2
      · exfalso
        apply hni
        rw [← e2]
        simpa using List.mem_map_of_mem Prod.snd m1
      · exact ih hnd' m1 m2

/-- C3: within one subject's accumulator, resolving an empty locator (via
`add_contact`) stores the fact with a null citation and creates no ledger
entry; resolving an already-seen locator returns its original id without
mutating the ledger; resolving a new locator assigns `counter + 1` and
appends the mapping, the very first locator receiving id 1; after any
operation sequence from a fresh store the recorded ids are exactly
`1..counter` in first-seen order, so no two distinct locators share an
id. -/
theorem c3_citation_ledger :
    (∀ (a : DataAccumulator) (n t e p s : String),
      (a.add_contact n t e p s "").citation_map = a.citation_map ∧
      (a.add_contact n t e p s "").citation_counter = a.citation_counter ∧
      (a.add_contact n t e p s "").contacts = a.contacts ++ [⟨n, t, e, p, s, "", none⟩]) ∧
    (∀ (a : DataAccumulator) (u : String) (i : Nat),
      alookup u a.citation_map = some i → a.get_citation_number u = (i, a)) ∧
    (∀ (a : DataAccumulator) (u : String),
      alookup u a.citation_map = none →
      (a.get_citation_number u).1 = a.citation_counter + 1 ∧
      (a.get_citation_number u).2.citation_map
        = a.citation_map ++ [(u, a.citation_counter + 1)]) ∧
    (∀ (comp : List (String × String)) (u : String),
      ((DataAccumulator.init comp).get_citation_number u).1 = 1) ∧
    (∀ (comp : List (String × String)) (ops : List AccOp), LedgerSeq (applyOps comp ops)) ∧
    (∀ (comp : List (String × String)) (ops : List AccOp) (u1 u2 : String) (i : Nat),
      (u1, i) ∈ (applyOps comp ops).citation_map →
      (u2, i) ∈ (applyOps comp ops).citation_map → u1 = u2) := by
  have hseq : ∀ (comp : List (String × String)) (ops : List AccOp),
      LedgerSeq (applyOps comp ops) := by
    intro comp ops
    exact ledgerSeq_foldl ops _ (by simp [LedgerSeq, DataAccumulator.init, List.range'])
  refine ⟨?_, ?_, ?_, ?_, hseq, ?_⟩
  · intro a n t e p s
    simp [DataAccumulator.add_contact]
  · intro a u i h
    simp [DataAccumulator.get_citation_number, h]
  · intro a u h
    simp [DataAccumulator.get_citation_number, h]
  · intro comp u
    simp [DataAccumulator.get_citation_number, DataAccumulator.init, alookup]
  · intro comp ops u1 u2 i h1 h2
    have hnd : ((applyOps comp ops).citation_map.map Prod.snd).Nodup := by
      rw [hseq comp ops]
      exact List.nodup_range' 1 (applyOps comp ops).citation_counter 1 Nat.one_pos
    exact snd_nodup_inj hnd h1 h2

/-- C3 witness: the already-seen, new-locator and distinct-id conjuncts
applied to concrete stores (the first locator of a fresh store gets id 1
and resolves idempotently). -/
theorem c3_citation_ledger_witness :
    (wAccA.get_citation_number "http://a.example.com" = (1, wAccA)) ∧
    ((DataAccumulator.init []).get_citation_number "http://a.example.com").1
      = (DataAccumulator.init []).citation_counter + 1 ∧
    ((DataAccumulator.init []).get_citation_number "http://a.example.com").2.citation_map
      = (DataAccumulator.init []).citation_map
        ++ [("http://a.example.com", (DataAccumulator.init []).citation_counter + 1)] ∧
    ("http://a.example.com" : String) = "http://a.example.com" :=
  ⟨c3_citation_ledger.2.1 wAccA "http://a.example.com" 1 rfl,
   (c3_citation_ledger.2.2.1 (DataAccumulator.init []) "http://a.example.com" rfl).1,
   (c3_citation_ledger.2.2.1 (DataAccumulator.init []) "http://a.example.com" rfl).2,
   c3_citation_ledger.2.2.2.2.2 [] wOps "http://a.example.com" "http://a.example.com" 1
     (by decide) (by decide)⟩

/-- C4 counterexample: `add_news` stores a record whose locator
(`url`) is non-empty yet which carries no citation id — reading its
`citation` key yields `None` — so the claim as stated fails for the news
category. -/
theorem c4_counterexample :
    ((DataAccumulator.init []).add_news "Acme raises Series B" ""
        "http://news.example.com/acme" "").news
      = [⟨"Acme raises Series B", "", "http://news.example.com/acme", ""⟩] ∧
    ("http://news.example.com/acme" : String) ≠ "" ∧
    NewsItem.citation ⟨"Acme raises Series B", "", "http://news.example.com/acme", ""⟩
      = none :=
  ⟨rfl, by decide, rfl⟩

/-- C4 (amended): throughout a subject's lifetime (any operation sequence
from a fresh store), every contact, pain-point and technology record with
a non-empty locator carries a non-null citation id equal to the ledger's
id for that locator — so any two such facts sharing a locator share a
citation id — while news records (like image and explored-source records)
are stored with no citation id at all. -/
theorem c4_citation_invariant (comp : List (String × String)) (ops : List AccOp) :
    CiteOK (applyOps comp ops) ∧
    (∀ (u : String) (c1 c2 : Option Nat), u ≠ "" →
      citedWith (applyOps comp ops) u c1 → citedWith (applyOps comp ops) u c2 → c1 = c2) ∧
    (∀ nw ∈ (applyOps comp ops).news, NewsItem.citation nw = none) := by
  have hA : CiteOK (applyOps comp ops) := citeOK_foldl ops _ (citeOK_init comp)
  refine ⟨hA, ?_, fun nw _ => rfl⟩
  intro u c1 c2 hu h1 h2
  have key : ∀ c : Option Nat, citedWith (applyOps comp ops) u c →
      c = alookup u (applyOps comp ops).citation_map := by
    intro c hcc
    rcases hcc with ⟨f, hf, hfu, hfc⟩ | ⟨f, hf, hfu, hfc⟩ | ⟨f, hf, hfu, hfc⟩
    · have hne : f.source_url ≠ "" := by rw [hfu]; exact hu
      have := (hA.1 f hf).2 hne
      rw [← hfc, this.1, hfu]
    · have hne : f.source_url ≠ "" := by rw [hfu]; exact hu
      have := (hA.2.1 f hf).2 hne
      rw [← hfc, this.1, hfu]
    · have hne : f.source_url ≠ "" := by rw [hfu]; exact hu
      have := (hA.2.2 f hf).2 hne
      rw [← hfc, this.1, hfu]
  rw [key c1 h1, key c2 h2]

/-- C4 witness: the shared-locator conjunct applied to a concrete run in
which a contact and a pain point cite the same locator. -/
theorem c4_citation_invariant_witness :
    (some 1 : Option Nat) = some 1 :=
  (c4_citation_invariant [] [.addContact "Jane Doe" "" "" "" "" "http://a.example.com",
      .addPainPoint "slow deploys" "" "" "http://a.example.com"]).2.1
    "http://a.example.com" (some 1) (some 1) (by decide)
    (Or.inl ⟨⟨"Jane Doe", "", "", "", "", "http://a.example.com", some 1⟩, by decide, rfl, rfl⟩)
    (Or.inr (Or.inl ⟨⟨"slow deploys", "", "", "http://a.example.com", some 1⟩, by decide, rfl, rfl⟩))

/-! ## Loop lemmas (C1, C2) -/

theorem add_contact_iterations (a : DataAccumulator) (n t e p s u : String) :
    (a.add_contact n t e p s u).iterations = a.iterations := by
  unfold DataAccumulator.add_contact
  by_cases hu : u = ""
  · rw [if_pos hu]
  · rw [if_neg hu]
    exact (get_citation_number_collections a u).2.2.2.2

theorem add_pain_point_iterations (a : DataAccumulator) (d e s u : String) :
    (a.add_pain_point d e s u).iterations = a.iterations := by
  unfold DataAccumulator.add_pain_point
  by_cases hu : u = ""
  · rw [if_pos hu]
  · rw [if_neg hu]
    exact (get_citation_number_collections a u).2.2.2.2

theorem add_technology_iterations (a : DataAccumulator) (t c s u : String) :
    (a.add_technology t c s u).iterations = a.iterations := by
  unfold DataAccumulator.add_technology
  by_cases hu : u = ""
  · rw [if_pos hu]
  · rw [if_neg hu]
    exact (get_citation_number_collections a u).2.2.2.2

theorem foldl_tech_iterations (u : String) (techs : List String) :
    ∀ a : DataAccumulator,
      (techs.foldl (fun acc tech => acc.add_technology tech "" "AI extraction" u) a).iterations
        = a.iterations := by
  induction techs with
  | nil => intro a; rfl
  | cons tech techs ih =>
    intro a
    rw [List.foldl_cons, ih, add_technology_iterations]

theorem dispatchAction_iterations (exploreOk : String → Bool) (st : OrchState) (act : Action) :
    (dispatchAction exploreOk st act).iterations = st.iterations := by
  cases act with
  | save_contact n t e p s u =>
    cases hacc : st.current_accumulator with
    | none => simp [dispatchAction, OrchState.save_contact_h, hacc, ite_self]
    | some a =>
      simp only [dispatchAction, OrchState.save_contact_h, hacc, apply_ite OrchState.iterations]
      simp [OrchState.iterations, hacc, add_contact_iterations, ite_self]
  | save_pain_point d e s u =>
    cases hacc : st.current_accumulator with
    | none => simp [dispatchAction, OrchState.save_pain_point_h, hacc]
    | some a =>
      simp [dispatchAction, OrchState.save_pain_point_h, hacc, OrchState.iterations,
        add_pain_point_iterations]
  | extract_tech_stack ts u =>
    cases hacc : st.current_accumulator with
    | none => simp [dispatchAction, OrchState.extract_tech_stack_h, hacc]
    | some a =>
      simp [dispatchAction, OrchState.extract_tech_stack_h, hacc, OrchState.iterations,
        foldl_tech_iterations]
  | explore_page url r =>
    by_cases hex : exploreOk url
    · cases hacc : st.current_accumulator with
      | none => simp [dispatchAction, OrchState.explore_page_h, hex, hacc, OrchState.iterations]
      | some a =>
        simp [dispatchAction, OrchState.explore_page_h, hex, hacc, OrchState.iterations,
          DataAccumulator.add_source]
    · simp [dispatchAction, OrchState.explore_page_h, hex]
  | other => rfl

theorem dispatchAction_isSome (exploreOk : String → Bool) (st : OrchState) (act : Action) :
    (dispatchAction exploreOk st act).current_accumulator.isSome
      = st.current_accumulator.isSome := by
  cases act with
  | save_contact n t e p s u =>
    cases hacc : st.current_accumulator with
    | none => simp [dispatchAction, OrchState.save_contact_h, hacc, ite_self]
    | some a =>
      simp only [dispatchAction, OrchState.save_contact_h, hacc,
        apply_ite (fun x : OrchState => x.current_accumulator.isSome)]
      simp [hacc, ite_self]
  | save_pain_point d e s u =>
    cases hacc : st.current_accumulator with
    | none => simp [dispatchAction, OrchState.save_pain_point_h, hacc]
    | some a => simp [dispatchAction, OrchState.save_pain_point_h, hacc]
  | extract_tech_stack ts u =>
    cases hacc : st.current_accumulator with
    | none => simp [dispatchAction, OrchState.extract_tech_stack_h, hacc]
    | some a => simp [dispatchAction, OrchState.extract_tech_stack_h, hacc]
  | explore_page url r =>
    by_cases hex : exploreOk url
    · cases hacc : st.current_accumulator with
      | none => simp [dispatchAction, OrchState.explore_page_h, hex, hacc]
      | some a => simp [dispatchAction, OrchState.explore_page_h, hex, hacc]
    · simp [dispatchAction, OrchState.explore_page_h, hex]
  | other => rfl

theorem dispatchList_iterations (exploreOk : String → Bool) (acts : List Action) :
    ∀ st : OrchState, (dispatchList exploreOk acts st).iterations = st.iterations := by
  induction acts with
  | nil => intro st; rfl
  | cons act acts ih =>
    intro st
    show (dispatchList exploreOk acts (dispatchAction exploreOk st act)).iterations = _
    rw [ih, dispatchAction_iterations]

theorem dispatchList_isSome (exploreOk : String → Bool) (acts : List Action) :
    ∀ st : OrchState, (dispatchList exploreOk acts st).current_accumulator.isSome
      = st.current_accumulator.isSome := by
  induction acts with
  | nil => intro st; rfl
  | cons act acts ih =>
    intro st
    show (dispatchList exploreOk acts (dispatchAction exploreOk st act)).current_accumulator.isSome = _
    rw [ih, dispatchAction_isSome]

theorem incrementIterSt_iterations (st : OrchState) (h : st.current_accumulator.isSome) :
    (incrementIterSt st).iterations = st.iterations + 1 := by
  cases hacc : st.current_accumulator with
  | none => rw [hacc] at h; simp at h
  | some a =>
    simp [incrementIterSt, OrchState.iterations, hacc, DataAccumulator.increment_iteration]

theorem incrementIterSt_isSome (st : OrchState) :
    (incrementIterSt st).current_accumulator.isSome = st.current_accumulator.isSome := by
  cases hacc : st.current_accumulator <;> simp [incrementIterSt, hacc]

theorem runIters_complete_at (oracle : Nat → Option Decision) (exploreOk : String → Bool)
    (k : Nat) (hk : ∃ d, oracle k = some d ∧ d.status = "complete")
    (hbefore : ∀ j, 1 ≤ j → j < k → ∃ d, oracle j = some d ∧ d.status ≠ "complete") :
    ∀ (n i : Nat) (st : OrchState), st.current_accumulator.isSome →
      st.iterations + 1 = i → 1 ≤ i → i ≤ k → k ≤ st.iterations + n →
      (runIters oracle exploreOk n i st).iterations = k := by
  intro n
  induction n with
  | zero =>
    intro i st _ hiter _ hik hkn
    exfalso
    omega
  | succ n ih =>
    intro i st hsome hiter h1i hik hkn
    have hsome2 : ∀ d : Decision,
        (dispatchList exploreOk (d.actions ++ d.next_steps)
          (incrementIterSt st)).current_accumulator.isSome := by
      intro d
      rw [dispatchList_isSome, incrementIterSt_isSome]
      exact hsome
    have hiter2 : ∀ d : Decision,
        (dispatchList exploreOk (d.actions ++ d.next_steps)
          (incrementIterSt st)).iterations = st.iterations + 1 := by
      intro d
      rw [dispatchList_iterations, incrementIterSt_iterations st hsome]
    rcases Nat.lt_or_ge i k with hlt | hge
    · obtain ⟨d, hd, hne⟩ := hbefore i h1i hlt
      simp only [runIters]
      rw [hd]
      dsimp only
      rw [if_neg hne]
      exact ih (i + 1) _ (hsome2 d) (by rw [hiter2 d]; omega) (by omega) hlt
        (by rw [hiter2 d]; omega)
    · have hik' : i = k := Nat.le_antisymm hik hge
      subst hik'
      obtain ⟨d, hd, hcomp⟩ := hk
      simp only [runIters]
      rw [hd]
      dsimp only
      rw [if_pos hcomp]
      rw [hiter2 d]
      omega

theorem runIters_exhaust (oracle : Nat → Option Decision) (exploreOk : String → Bool) :
    ∀ (n i : Nat) (st : OrchState), st.current_accumulator.isSome →
      st.iterations + 1 = i →
      (∀ j, i ≤ j → j ≤ st.iterations + n → ∃ d, oracle j = some d ∧ d.status ≠ "complete") →
      (runIters oracle exploreOk n i st).iterations = st.iterations + n := by
  intro n
  induction n with
  | zero => intro i st _ _ _; rfl
  | succ n ih =>
    intro i st hsome hiter hrange
    obtain ⟨d, hd, hne⟩ := hrange i (by omega) (by omega)
    simp only [runIters]
    rw [hd]
    dsimp only
    rw [if_neg hne]
    have hsome2 : (dispatchList exploreOk (d.actions ++ d.next_steps)
        (incrementIterSt st)).current_accumulator.isSome := by
      rw [dispatchList_isSome, incrementIterSt_isSome]
      exact hsome
    have hiter2 : (dispatchList exploreOk (d.actions ++ d.next_steps)
        (incrementIterSt st)).iterations = st.iterations + 1 := by
      rw [dispatchList_iterations, incrementIterSt_iterations st hsome]
    have := ih (i + 1) _ hsome2 (by rw [hiter2]; omega)
      (fun j hj1 hj2 => hrange j (by omega) (by rw [hiter2] at hj2; omega))
    rw [this, hiter2]
    omega

theorem runIters_abort (oracle : Nat → Option Decision) (exploreOk : String → Bool) :
    ∀ (n m i : Nat) (st : OrchState), n < m →
      (∀ j, i ≤ j → j < i + n → ∃ d, oracle j = some d ∧ d.status ≠ "complete") →
      oracle (i + n) = none →
      runIters oracle exploreOk m i st
        = incrementIterSt (runFirstIters oracle exploreOk n i st) := by
  intro n
  induction n with
  | zero =>
    intro m i st hm _ hnone
    obtain ⟨m', rfl⟩ : ∃ m', m = m' + 1 := ⟨m - 1, by omega⟩
    rw [Nat.add_zero] at hnone
    simp only [runIters, runFirstIters]
    rw [hnone]
  | succ n ih =>
    intro m i st hm hbef hnone
    obtain ⟨m', rfl⟩ : ∃ m', m = m' + 1 := ⟨m - 1, by omega⟩
    obtain ⟨d, hd, hne⟩ := hbef i (Nat.le_refl i) (by omega)
    simp only [runIters, runFirstIters]
    rw [hd]
    dsimp only
    rw [if_neg hne]
    exact ih m' (i + 1) _ (by omega)
      (fun j hj1 hj2 => hbef j (by omega) (by omega))
      (by rw [show i + 1 + n = i + (n + 1) from by omega]; exact hnone)

theorem runFirstIters_iters (oracle : Nat → Option Decision) (exploreOk : String → Bool) :
    ∀ (n i : Nat) (st : OrchState), st.current_accumulator.isSome →
      (∀ j, i ≤ j → j < i + n → (oracle j).isSome) →
      (runFirstIters oracle exploreOk n i st).iterations = st.iterations + n ∧
      (runFirstIters oracle exploreOk n i st).current_accumulator.isSome := by
  intro n
  induction n with
  | zero => intro i st h _; exact ⟨rfl, h⟩
  | succ n ih =>
    intro i st hsome hdef
    have h0 : (oracle i).isSome := hdef i (Nat.le_refl i) (by omega)
    obtain ⟨d, hd⟩ := Option.isSome_iff_exists.1 h0
    simp only [runFirstIters]
    rw [hd]
    dsimp only
    have hsome2 : (dispatchList exploreOk (d.actions ++ d.next_steps)
        (incrementIterSt st)).current_accumulator.isSome := by
      rw [dispatchList_isSome, incrementIterSt_isSome]
      exact hsome
    have hiter2 : (dispatchList exploreOk (d.actions ++ d.next_steps)
        (incrementIterSt st)).iterations = st.iterations + 1 := by
      rw [dispatchList_iterations, incrementIterSt_iterations st hsome]
    obtain ⟨ha, hb⟩ := ih (i + 1) _ hsome2 (fun j hj1 hj2 => hdef j (by omega) (by omega))
    refine ⟨?_, hb⟩
    rw [ha, hiter2]
    omega

theorem initCompanyState_isSome (company : List (String × String)) (st0 : OrchState) :
    (initCompanyState company st0).current_accumulator.isSome := by
  unfold initCompanyState
  by_cases hw : dictGetD company "WebsiteURL" "" = "" <;> simp [hw]

theorem initCompanyState_iterations (company : List (String × String)) (st0 : OrchState) :
    (initCompanyState company st0).iterations = 0 := by
  unfold initCompanyState
  by_cases hw : dictGetD company "WebsiteURL" "" = "" <;>
    simp [hw, OrchState.iterations, DataAccumulator.init, DataAccumulator.add_source]

/-- C1: with budget `N ≥ 1`, if the oracle first reports completion on
iteration `k ∈ [1, N]` (defined and non-complete before that), the loop
stops after iteration `k` and the fact store's iteration counter equals
`k`; if the oracle is defined and never reports completion through `N`,
the loop runs exactly `N` iterations and the counter equals `N`. -/
theorem c1_loop_termination (oracle : Nat → Option Decision) (exploreOk : String → Bool)
    (company : List (String × String)) (N : Nat) (st0 : OrchState) :
    (∀ k, 1 ≤ k → k ≤ N →
      (∀ j, 1 ≤ j → j < k → ∃ d, oracle j = some d ∧ d.status ≠ "complete") →
      (∃ d, oracle k = some d ∧ d.status = "complete") →
      (research_company oracle exploreOk company N st0).iterations = k) ∧
    (1 ≤ N →
      (∀ j, 1 ≤ j → j ≤ N → ∃ d, oracle j = some d ∧ d.status ≠ "complete") →
      (research_company oracle exploreOk company N st0).iterations = N) := by
  constructor
  · intro k h1k hkN hbefore hk
    exact runIters_complete_at oracle exploreOk k hk hbefore N 1 _
      (initCompanyState_isSome company st0)
      (by rw [initCompanyState_iterations]) (Nat.le_refl 1) h1k
      (by rw [initCompanyState_iterations]; omega)
  · intro _ hrange
    have := runIters_exhaust oracle exploreOk N 1 (initCompanyState company st0)
      (initCompanyState_isSome company st0)
      (by rw [initCompanyState_iterations])
      (fun j hj1 hj2 => hrange j hj1
        (by rw [initCompanyState_iterations] at hj2; omega))
    rw [show research_company oracle exploreOk company N st0
        = runIters oracle exploreOk N 1 (initCompanyState company st0) from rfl, this,
      initCompanyState_iterations]
    omega

/-- C1 witness: completion on iteration 2 of a 10-iteration budget stops
the loop with counter 2; a never-complete oracle runs all 10. -/
theorem c1_loop_termination_witness :
    (research_company wOracleComplete2 (fun _ => false) [] 10 ⟨none, ""⟩).iterations = 2 ∧
    (research_company wOracleNeverDone (fun _ => false) [] 10 ⟨none, ""⟩).iterations = 10 :=
  ⟨(c1_loop_termination wOracleComplete2 (fun _ => false) [] 10 ⟨none, ""⟩).1 2
      (by omega) (by omega)
      (fun j hj1 hj2 => ⟨_, rfl, by
        have hj : j = 1 := by omega
        subst hj
        decide⟩)
      ⟨_, rfl, by decide⟩,
   (c1_loop_termination wOracleNeverDone (fun _ => false) [] 10 ⟨none, ""⟩).2
      (by omega) (fun j _ _ => ⟨_, rfl, by decide⟩)⟩

/-- C2: if the oracle raises on iteration `i` (defined and non-complete
before that), `research_company` returns normally and its result is
exactly the state after the first `i - 1` full iterations plus the
iteration-`i` counter increment — the partial fact store is preserved and
the counter equals `i`. -/
theorem c2_abort_preserves_store (oracle : Nat → Option Decision) (exploreOk : String → Bool)
    (company : List (String × String)) (N : Nat) (st0 : OrchState) (i : Nat)
    (h1 : 1 ≤ i) (h2 : i ≤ N)
    (hbef : ∀ j, 1 ≤ j → j < i → ∃ d, oracle j = some d ∧ d.status ≠ "complete")
    (hfail : oracle i = none) :
    research_company oracle exploreOk company N st0
      = incrementIterSt
          (runFirstIters oracle exploreOk (i - 1) 1 (initCompanyState company st0)) ∧
    (research_company oracle exploreOk company N st0).iterations = i := by
  have key := runIters_abort oracle exploreOk (i - 1) N 1 (initCompanyState company st0)
    (by omega)
    (fun j hj1 hj2 => hbef j hj1 (by omega))
    (by rw [show 1 + (i - 1) = i from by omega]; exact hfail)
  have hkey : research_company oracle exploreOk company N st0
      = incrementIterSt
          (runFirstIters oracle exploreOk (i - 1) 1 (initCompanyState company st0)) := key
  refine ⟨hkey, ?_⟩
  have hfi := runFirstIters_iters oracle exploreOk (i - 1) 1 (initCompanyState company st0)
    (initCompanyState_isSome company st0)
    (fun j hj1 hj2 => by
      obtain ⟨d, hd, _⟩ := hbef j hj1 (by omega)
      rw [hd]
      rfl)
  rw [hkey, incrementIterSt_iterations _ hfi.2, hfi.1, initCompanyState_iterations]
  omega

/-- C2 witness: an oracle that raises on iteration 1 of a 3-iteration
budget returns the fact store in its iteration-1 state. -/
theorem c2_abort_preserves_store_witness :
    research_company wOracleRaises (fun _ => false) [] 3 ⟨none, ""⟩
      = incrementIterSt
          (runFirstIters wOracleRaises (fun _ => false) 0 1 (initCompanyState [] ⟨none, ""⟩)) ∧
    (research_company wOracleRaises (fun _ => false) [] 3 ⟨none, ""⟩).iterations = 1 :=
  c2_abort_preserves_store wOracleRaises (fun _ => false) [] 3 ⟨none, ""⟩ 1
    (by omega) (by omega) (fun j hj1 hj2 => absurd (Nat.lt_of_lt_of_le hj2 hj1) (by omega))
    rfl

/-! ## Inherited-locator lemmas (C8) -/

theorem foldl_tech_locked (X : String) (hX : X ≠ "") (n : Nat) :
    ∀ (techs : List String) (a : DataAccumulator), alookup X a.citation_map = some n →
      (techs.foldl (fun acc tech => acc.add_technology tech "" "AI extraction" X) a).tech_stack
        = a.tech_stack ++ techs.map (fun t => ⟨t, "", "AI extraction", X, some n⟩) := by
  intro techs
  induction techs with
  | nil => intro a _; simp
  | cons t ts ih =>
    intro a hn
    rw [List.foldl_cons]
    have hstep : a.add_technology t "" "AI extraction" X
        = { a with tech_stack := a.tech_stack ++ [⟨t, "", "AI extraction", X, some n⟩] } := by
      unfold DataAccumulator.add_technology DataAccumulator.get_citation_number
      rw [if_neg hX, hn]
    rw [hstep, ih _ (by exact hn)]
    simp

theorem foldl_tech_stack_shape (X : String) (hX : X ≠ "") (techs : List String)
    (a : DataAccumulator) :
    (techs.foldl (fun acc tech => acc.add_technology tech "" "AI extraction" X) a).tech_stack
      = a.tech_stack ++ techs.map
          (fun t => ⟨t, "", "AI extraction", X, some (a.get_citation_number X).1⟩) := by
  cases techs with
  | nil => simp
  | cons t ts =>
    rw [List.foldl_cons]
    have h1 : (a.add_technology t "" "AI extraction" X).tech_stack
        = a.tech_stack ++ [⟨t, "", "AI extraction", X, some (a.get_citation_number X).1⟩] := by
      unfold DataAccumulator.add_technology
      rw [if_neg hX]
      dsimp only
      rw [(get_citation_number_collections a X).2.2.1]
    have h2 : alookup X (a.add_technology t "" "AI extraction" X).citation_map
        = some (a.get_citation_number X).1 := by
      unfold DataAccumulator.add_technology
      rw [if_neg hX]
      dsimp only
      exact (get_citation_number_spec a X).1
    rw [foldl_tech_locked X hX (a.get_citation_number X).1 ts _ h2, h1]
    simp

theorem dispatchAction_source_url (exploreOk : String → Bool) (st : OrchState) (act : Action)
    (h : successfulExplore exploreOk act = false) :
    (dispatchAction exploreOk st act).current_source_url = st.current_source_url := by
  cases act with
  | save_contact n t e p s u =>
    cases hacc : st.current_accumulator with
    | none => simp [dispatchAction, OrchState.save_contact_h, hacc, ite_self]
    | some a =>
      simp only [dispatchAction, OrchState.save_contact_h, hacc,
        apply_ite (fun x : OrchState => x.current_source_url)]
      simp [ite_self]
  | save_pain_point d e s u =>
    cases hacc : st.current_accumulator with
    | none => simp [dispatchAction, OrchState.save_pain_point_h, hacc]
    | some a => simp [dispatchAction, OrchState.save_pain_point_h, hacc]
  | extract_tech_stack ts u =>
    cases hacc : st.current_accumulator with
    | none => simp [dispatchAction, OrchState.extract_tech_stack_h, hacc]
    | some a => simp [dispatchAction, OrchState.extract_tech_stack_h, hacc]
  | explore_page url r =>
    have hex : exploreOk url = false := by simpa [successfulExplore] using h
    simp [dispatchAction, OrchState.explore_page_h, hex]
  | other => rfl

/-- C8: the current-source-locator is threaded through dispatch with
last-successful-explore-wins semantics: a successful exploration of `url`
overwrites it with `url`; every other action (saves, failed explores,
no-ops) preserves it, also along whole action lists; and each of the three
save-type handlers, invoked without an explicit locator while the current
locator is `X`, appends its fact with locator `X` and `X`'s ledger
citation id. -/
theorem c8_inherited_locator (exploreOk : String → Bool) :
    (∀ (st : OrchState) (url r : String), exploreOk url = true →
      (dispatchAction exploreOk st (.explore_page url r)).current_source_url = url) ∧
    (∀ (st : OrchState) (act : Action), successfulExplore exploreOk act = false →
      (dispatchAction exploreOk st act).current_source_url = st.current_source_url) ∧
    (∀ (acts : List Action) (st : OrchState),
      (∀ act ∈ acts, successfulExplore exploreOk act = false) →
      (dispatchList exploreOk acts st).current_source_url = st.current_source_url) ∧
    (∀ (st : OrchState) (a : DataAccumulator) (d e s : String),
      st.current_accumulator = some a → st.current_source_url ≠ "" →
      ∃ a', (dispatchAction exploreOk st (.save_pain_point d e s "")).current_accumulator
          = some a' ∧
        a'.pain_points = a.pain_points
          ++ [⟨d, e, s, st.current_source_url,
                some (a.get_citation_number st.current_source_url).1⟩]) ∧
    (∀ (st : OrchState) (a : DataAccumulator) (n t e p s : String),
      st.current_accumulator = some a → st.current_source_url ≠ "" →
      ¬(pyStrip n = "" ∧ pyStrip e = "") →
      ∃ a', (dispatchAction exploreOk st (.save_contact n t e p s "")).current_accumulator
          = some a' ∧
        a'.contacts = a.contacts
          ++ [⟨pyStrip n, pyStrip t, pyStrip e, pyStrip p, pyStrip s, st.current_source_url,
                some (a.get_citation_number st.current_source_url).1⟩]) ∧
    (∀ (st : OrchState) (a : DataAccumulator) (techs : List String),
      st.current_accumulator = some a → st.current_source_url ≠ "" →
      ∃ a', (dispatchAction exploreOk st (.extract_tech_stack techs "")).current_accumulator
          = some a' ∧
        a'.tech_stack = a.tech_stack
          ++ techs.map (fun tech => ⟨tech, "", "AI extraction", st.current_source_url,
                some (a.get_citation_number st.current_source_url).1⟩)) := by
  have hlist : ∀ (acts : List Action) (st : OrchState),
      (∀ act ∈ acts, successfulExplore exploreOk act = false) →
      (dispatchList exploreOk acts st).current_source_url = st.current_source_url := by
    intro acts
    induction acts with
    | nil => intro st _; rfl
    | cons act acts ih =>
      intro st hall
      show (dispatchList exploreOk acts (dispatchAction exploreOk st act)).current_source_url = _
      rw [ih _ (fun a ha => hall a (List.mem_cons_of_mem act ha)),
        dispatchAction_source_url exploreOk st act (hall act (List.mem_cons_self act acts))]
  refine ⟨?_, dispatchAction_source_url exploreOk, hlist, ?_, ?_, ?_⟩
  · intro st url r hex
    cases hacc : st.current_accumulator with
    | none => simp [dispatchAction, OrchState.explore_page_h, hex, hacc]
    | some a => simp [dispatchAction, OrchState.explore_page_h, hex, hacc]
  · intro st a d e s hacc hX
    simp only [dispatchAction, OrchState.save_pain_point_h, hacc, if_pos]
    refine ⟨_, rfl, ?_⟩
    unfold DataAccumulator.add_pain_point
    rw [if_neg hX]
    dsimp only
    rw [(get_citation_number_collections a st.current_source_url).2.1]
  · intro st a n t e p s hacc hX hgate
    simp only [dispatchAction, OrchState.save_contact_h, hacc, if_pos]
    rw [if_neg hgate, if_neg (by tauto)]
    refine ⟨_, rfl, ?_⟩
    unfold DataAccumulator.add_contact
    rw [if_neg hX]
    dsimp only
    rw [(get_citation_number_collections a st.current_source_url).1]
  · intro st a techs hacc hX
    simp only [dispatchAction, OrchState.extract_tech_stack_h, hacc, if_pos]
    refine ⟨_, rfl, ?_⟩
    exact foldl_tech_stack_shape st.current_source_url hX techs a

/-- C8 witness: with the current locator set by a successful exploration
of `https://acme.example.com/about`, a pain point saved with no explicit
locator is recorded under that url with its ledger id 1. -/
theorem c8_inherited_locator_witness :
    (dispatchAction (fun _ => true) ⟨some (DataAccumulator.init []), ""⟩
      (.explore_page "https://acme.example.com/about" "team info")).current_source_url
      = "https://acme.example.com/about" ∧
    ∃ a', (dispatchAction (fun _ => true)
        ⟨some (DataAccumulator.init []), "https://acme.example.com/about"⟩
        (.save_pain_point "manual reporting" "" "" "")).current_accumulator = some a' ∧
      a'.pain_points = (DataAccumulator.init []).pain_points
        ++ [⟨"manual reporting", "", "", "https://acme.example.com/about", some 1⟩] :=
  ⟨(c8_inherited_locator (fun _ => true)).1 ⟨some (DataAccumulator.init []), ""⟩
      "https://acme.example.com/about" "team info" rfl,
   (c8_inherited_locator (fun _ => true)).2.2.2.1
      ⟨some (DataAccumulator.init []), "https://acme.example.com/about"⟩
      (DataAccumulator.init []) "manual reporting" "" "" rfl (by decide)⟩

/-! ## Decision-oracle adapter lemmas (C9) -/

theorem splitOnFirst_none_of_not_mem (pat : List Char) (c : Char) (hc : pat.head? = some c) :
    ∀ cs : List Char, c ∉ cs → splitOnFirst pat cs = none := by
  intro cs
  induction cs with
  | nil =>
    intro _
    cases pat with
    | nil => simp at hc
    | cons p ps => simp [splitOnFirst, List.isPrefixOf]
  | cons d ds ih =>
    intro hmem
    have hd : c ≠ d := fun h => hmem (h ▸ List.mem_cons_self d ds)
    have hpre : pat.isPrefixOf (d :: ds) = false := by
      cases pat with
      | nil => simp at hc
      | cons p ps =>
        have hp : p = c := by simpa using hc
        subst hp
        have : (p == d) = false := by simpa using hd
        simp [List.isPrefixOf, this]
    have htail : splitOnFirst pat ds = none :=
      ih (fun h => hmem (List.mem_cons_of_mem d h))
    simp [splitOnFirst, hpre, htail]

theorem extractFenced_none (cs : List Char) (h : '`' ∉ cs) : extractFenced cs = none := by
  unfold extractFenced
  rw [splitOnFirst_none_of_not_mem "```json".data '`' rfl cs h]

theorem dropWhile_append_of_all (p : Char → Bool) :
    ∀ (l1 l2 : List Char), (∀ c ∈ l1, p c = true) →
      (l1 ++ l2).dropWhile p = l2.dropWhile p := by
  intro l1 l2
  induction l1 with
  | nil => intro _; rfl
  | cons c cs ih =>
    intro h
    rw [List.cons_append, List.dropWhile_cons]
    rw [h c (List.mem_cons_self c cs)]
    simp only [if_true]
    exact ih (fun x hx => h x (List.mem_cons_of_mem c hx))

theorem braceSpan_sandwich (pre j post : List Char)
    (hpre : '{' ∉ pre) (hpost : '}' ∉ post)
    (hhead : j.head? = some '{') (hlast : j.getLast? = some '}') :
    braceSpan (pre ++ j ++ post) = some j := by
  obtain ⟨jh, jt, rfl⟩ : ∃ h t, j = h :: t := by
    cases j with
    | nil => simp at hhead
    | cons a b => exact ⟨a, b, rfl⟩
  have hjh : jh = '{' := by simpa using hhead
  subst hjh
  have h1 : (pre ++ ('{' :: jt) ++ post).dropWhile (fun c => c != '{')
      = '{' :: (jt ++ post) := by
    rw [List.append_assoc,
      dropWhile_append_of_all _ pre _ (fun c hcmem => by
        have : c ≠ '{' := fun h => hpre (h ▸ hcmem)
        simpa using this)]
    simp
  have hjt : jt ≠ [] := by
    intro h
    subst h
    simp at hlast
  obtain ⟨x, xs, rfl⟩ := List.exists_cons_of_ne_nil hjt
  have hlast' : (x :: xs).getLast? = some '}' := by
    rwa [List.getLast?_cons_cons] at hlast
  have hmem : '}' ∈ (x :: xs) := List.mem_of_mem_getLast? (by simp [hlast'])
  unfold braceSpan
  rw [h1]
  dsimp only
  have hcont : ((x :: xs) ++ post).contains '}' = true := by
    have hx := List.mem_cons.1 hmem
    simp [List.mem_append]
    tauto
  rw [if_pos hcont]
  refine congrArg some ?_
  have hrevsplit : ('{' :: ((x :: xs) ++ post)).reverse
      = post.reverse ++ ('{' :: (x :: xs)).reverse := by
    rw [show ('{' :: ((x :: xs) ++ post)) = ('{' :: (x :: xs)) ++ post from by simp,
      List.reverse_append]
  rw [hrevsplit,
    dropWhile_append_of_all _ post.reverse _ (fun c hcmem => by
      have : c ≠ '}' := fun h => hpost (h ▸ (List.mem_reverse.1 hcmem))
      simpa using this)]
  have hrevhead : ('{' :: (x :: xs)).reverse.head? = some '}' := by
    rw [List.head?_reverse]
    rwa [List.getLast?_cons_cons]
  cases hrev : ('{' :: (x :: xs)).reverse with
  | nil => simp [hrev] at hrevhead
  | cons y ys =>
    rw [hrev] at hrevhead
    have hy : y = '}' := by simpa using hrevhead
    subst hy
    rw [List.dropWhile_cons_of_neg (by simp), ← hrev, List.reverse_reverse]

/-- C9 counterexample: on the response `x {} y}` the spec's "first
well-formed span" is `{}`, which parses, yet the code's greedy extraction
(first `{` through the last `}`) yields `{} y}`, which fails to parse, so
`parse_json_response` raises instead of succeeding. -/
theorem c9_counterexample :
    specFirstWellFormedSpan "x \x7b\x7d y\x7d".data = some "\x7b\x7d".data ∧
    json_loads "\x7b\x7d".data = some (Json.obj []) ∧
    candidateOf "x \x7b\x7d y\x7d".data = "\x7b\x7d y\x7d".data ∧
    parse_json_response "x \x7b\x7d y\x7d".data = none :=
  ⟨by decide, rfl, rfl, rfl⟩

/-- C9 (amended): the decision-oracle adapter fails exactly when the
upstream call does not return success (timeout, non-success HTTP status,
or any other transport exception) or when the extracted candidate is not
valid JSON; the candidate is the fenced block if present, else the span
from the first `\x7b` to the last `\x7d`, else the raw text — hence a
single JSON object surrounded by brace-free, fence-free prose is parsed
successfully. -/
theorem c9_decision_adapter :
    (∀ o : UpstreamOutcome, (∃ err, analyze_call o = .error err) ↔
      (o = .timedOut ∨ (∃ s t, o = .httpError s t) ∨ (∃ m, o = .exceptionRaised m) ∨
        (∃ c, o = .success c ∧ json_loads (candidateOf c) = none))) ∧
    (∀ (pre j post : List Char) (v : Json),
      json_loads j = some v → j.head? = some '{' → j.getLast? = some '}' →
      '{' ∉ pre → '`' ∉ pre → '}' ∉ post → '`' ∉ post → '`' ∉ j →
      parse_json_response (pre ++ j ++ post) = some v ∧
      analyze_call (.success (pre ++ j ++ post)) = .ok v) := by
  constructor
  · intro o
    cases o with
    | success c =>
      constructor
      · rintro ⟨err, he⟩
        refine Or.inr (Or.inr (Or.inr ⟨c, rfl, ?_⟩))
        cases hp : parse_json_response c with
        | none => exact hp
        | some v =>
          rw [show analyze_call (.success c)
              = (match parse_json_response c with
                 | some v => Except.ok v
                 | none => Except.error DecisionFailure.valueErrorParse) from rfl, hp] at he
          cases he
      · rintro (h | ⟨s, t, h⟩ | ⟨m, h⟩ | ⟨c', hc', hnone⟩)
        · cases h
        · cases h
        · cases h
        · injection hc' with h
          subst h
          refine ⟨.valueErrorParse, ?_⟩
          rw [show analyze_call (.success c)
              = (match parse_json_response c with
                 | some v => Except.ok v
                 | none => Except.error DecisionFailure.valueErrorParse) from rfl,
            show parse_json_response c = none from hnone]
    | timedOut =>
      exact ⟨fun _ => Or.inl rfl, fun _ => ⟨.runtimeTimeout, rfl⟩⟩
    | httpError s t =>
      exact ⟨fun _ => Or.inr (Or.inl ⟨s, t, rfl⟩), fun _ => ⟨.runtimeHttp s t, rfl⟩⟩
    | exceptionRaised m =>
      exact ⟨fun _ => Or.inr (Or.inr (Or.inl ⟨m, rfl⟩)), fun _ => ⟨.runtimeOther m, rfl⟩⟩
  · intro pre j post v hv hhead hlast hpre1 hpre2 hpost1 hpost2 hj
    have hnotick : '`' ∉ pre ++ j ++ post := by
      intro h
      rcases List.mem_append.1 h with h' | h'
      · rcases List.mem_append.1 h' with h'' | h''
        · exact hpre2 h''
        · exact hj h''
      · exact hpost2 h'
    have hcand : candidateOf (pre ++ j ++ post) = j := by
      unfold candidateOf
      rw [extractFenced_none _ hnotick, braceSpan_sandwich pre j post hpre1 hpost1 hhead hlast]
    have hparse : parse_json_response (pre ++ j ++ post) = some v := by
      show json_loads (candidateOf (pre ++ j ++ post)) = some v
      rw [hcand]
      exact hv
    refine ⟨hparse, ?_⟩
    rw [show analyze_call (.success (pre ++ j ++ post))
        = (match parse_json_response (pre ++ j ++ post) with
           | some v => Except.ok v
           | none => Except.error DecisionFailure.valueErrorParse) from rfl, hparse]

/-- C9 witness: a timeout produces an error, and a JSON object wrapped in
prose on both sides parses to the object itself. -/
theorem c9_decision_adapter_witness :
    (∃ err, analyze_call .timedOut = .error err) ∧
    parse_json_response
        ("Sure: ".data ++ "\x7b\"status\": \"complete\"\x7d".data ++ " hope this helps".data)
      = some (Json.obj [("status".data, Json.str "complete".data)]) :=
  ⟨(c9_decision_adapter.1 .timedOut).2 (Or.inl rfl),
   (c9_decision_adapter.2 "Sure: ".data "\x7b\"status\": \"complete\"\x7d".data
      " hope this helps".data (Json.obj [("status".data, Json.str "complete".data)])
      rfl rfl (by decide) (by decide) (by decide) (by decide) (by decide) (by decide)).1⟩

end LeadGen
